import Mathlib

/-!
# Planwise backend (`planwise-upload/main.go`): a shallow embedding

The Go service has three handlers (`handleAnalyze`, `handleUpload`,
`handleGetPlans`) and three helpers (`savePlan`, `parseTaskArray`, `readText`).
This development embeds them as pure Lean functions.

* A Go `string` is a sequence of bytes: `GoString := List UInt8`.
* A Go slice is either `nil` or a (possibly empty) sequence: `GoSlice α := Option (List α)`.
* The collaborators outside the repository (JSON binding, the completion client,
  `database/sql`, `encoding/json`) appear as explicit arguments or as small models
  of their documented behaviour.
* Every handler returns a `Run`: how the handler ended (a response written with
  `c.JSON`, or a run-time panic) and the trace of the external calls it made.
-/

namespace Planwise

/-! ## Strings and slices -/

/-- A Go string: an immutable sequence of bytes. -/
abbrev GoString := List UInt8

/-- The bytes of an ASCII string literal of the source. -/
def ascii (s : String) : GoString := s.data.map (fun c => c.toNat.toUInt8)

/-- The byte `','` (0x2C). -/
def comma : UInt8 := 44

/-- The byte `'\n'` (0x0A). -/
def newline : UInt8 := 10

/-- A Go slice value: `none` is the `nil` slice, `some xs` a non-nil slice holding `xs`. -/
abbrev GoSlice (α : Type) := Option (List α)

/-- The elements of a slice, as `range` sees them (`nil` has none). -/
def GoSlice.toList {α : Type} : GoSlice α → List α
  | none => []
  | some xs => xs

/-- Go's builtin `append(s, x)`: the result is never `nil`. -/
def goAppend {α : Type} (s : GoSlice α) (x : α) : GoSlice α :=
  some (GoSlice.toList s ++ [x])

/-! ## The `strings` package, as far as the program calls it -/

namespace strings

/-- `strings.Join(elems, sep)`: no element gives `""`, otherwise the first
element followed, for each later element, by `sep` and that element. -/
def Join : List GoString → GoString → GoString
  | [], _ => []
  | e :: es, sep => es.foldl (fun b s => b ++ sep ++ s) e

/-- `strings.Count(s, sep)` for a separator of one byte. -/
def Count (s : GoString) (sep : UInt8) : Nat := s.count sep

/-- `strings.Index(s, sep)` for a separator of one byte; `none` stands for `-1`. -/
def Index : GoString → UInt8 → Option Nat
  | [], _ => none
  | b :: bs, sep => if b = sep then some 0 else (Index bs sep).map (· + 1)

/-- The loop of `genSplit`: `k` is the number of cuts still allowed (`n - 1 - i`). -/
def genSplitLoop (sep : UInt8) : Nat → GoString → List GoString
  | 0, s => [s]
  | k + 1, s =>
    match Index s sep with
    | none => [s]
    | some m => s.take m :: genSplitLoop sep k (s.drop (m + 1))

/-- `strings.Split(s, sep)` for a separator of one byte (the program only calls
it with `","`): `genSplit(s, sep, 0, -1)` of the Go library. -/
def Split (s : GoString) (sep : UInt8) : List GoString :=
  let n := Count s sep + 1
  let n := if n > s.length + 1 then s.length + 1 else n
  genSplitLoop sep (n - 1) s

end strings

/-! ## Helpers of `main.go` -/

/-- The function `parseTaskArray` of `main.go`. -/
def parseTaskArray (s : GoString) : GoSlice GoString :=
  if s = [] then some [] else some (strings.Split s comma)

/-- The function `savePlan` of `main.go`; `exec title tasks feedback` stands for
`db.Exec` of the `INSERT` statement with its three arguments and returns the error, if any. -/
def savePlan (exec : GoString → GoString → GoString → Option GoString)
    (title : GoString) (steps : GoSlice GoString) (suggestions : GoString) : Option GoString :=
  exec title (strings.Join (GoSlice.toList steps) [comma]) suggestions

/-- The function `readText` of `main.go`; the file is given by what `ioutil.ReadAll` returns on it. -/
def readText (file : Except GoString GoString) : Except GoString GoString :=
  match file with
  | .error err => .error err
  | .ok bytes => .ok bytes

/-! ## `fmt.Sprintf` as the program uses it -/

/-- The verb `%d` on a non-negative `int`: the decimal digits, most significant first. -/
def decimal (n : Nat) : GoString := (Nat.toDigits 10 n).map (fun c => c.toNat.toUInt8)

/-- The call `fmt.Sprintf("%d. %s\n", n, step)` of `handleAnalyze`. -/
def sprintfStep (n : Nat) (step : GoString) : GoString :=
  decimal n ++ ascii ". " ++ step ++ [newline]

/-- The loop `for i, step := range req.Steps { joinedSteps += ... }` of `handleAnalyze`,
started at index `i` with `joinedSteps = acc`. -/
def joinStepsLoop : Nat → List GoString → GoString → GoString
  | _, [], acc => acc
  | i, step :: rest, acc => joinStepsLoop (i + 1) rest (acc ++ sprintfStep (i + 1) step)

/-- The value of `joinedSteps` after the loop of `handleAnalyze`. -/
def joinedSteps (steps : GoSlice GoString) : GoString :=
  joinStepsLoop 0 (GoSlice.toList steps) []

/-- The value of `prompt` in `handleAnalyze`. -/
def analyzePrompt (title : GoString) (steps : GoSlice GoString) : GoString :=
  ascii "Here is a weekly plan titled \"" ++ title ++ ascii "\" with steps:\n"
    ++ joinedSteps steps
    ++ ascii "\n\nPlease provide suggestions to improve this plan in a numbered list."

/-- The value of `prompt` in `handleUpload`. -/
def uploadPrompt (content : GoString) : GoString :=
  ascii "Here is a document:\n" ++ content
    ++ ascii "\n\nGive suggestions or a summary in a bullet list."

/-- The block the specification describes: for `i = 0 .. N-1` in order, the line
`decimal (i+1) ++ ". " ++ steps[i]`, here without its final newline. -/
def numberedLines (steps : List GoString) : List GoString :=
  steps.enum.map (fun p => decimal (p.1 + 1) ++ ascii ". " ++ p.2)

/-- The numbered lines, each followed by a newline, concatenated. -/
def numberedBlock (steps : List GoString) : GoString :=
  ((numberedLines steps).map (fun l => l ++ [newline])).flatten

/-! ## Data model -/

/-- The struct `AnalyzeRequest`. -/
structure AnalyzeRequest where
  Title : GoString
  Steps : GoSlice GoString

/-- The struct `Plan`; `CreatedAt` is an instant, as a number of time units since an epoch. -/
structure Plan where
  ID : Int
  Goal : GoString
  Tasks : GoSlice GoString
  Feedback : GoString
  CreatedAt : Int

/-- A message of the completion API (`openai.ChatCompletionMessage`). -/
structure ChatCompletionMessage where
  Role : GoString
  Content : GoString

/-- The request of the completion API (`openai.ChatCompletionRequest`). -/
structure ChatCompletionRequest where
  Model : GoString
  Messages : List ChatCompletionMessage

/-- One choice of a completion (`openai.ChatCompletionChoice`). -/
structure ChatCompletionChoice where
  Message : ChatCompletionMessage

/-- The response of the completion API (`openai.ChatCompletionResponse`). -/
structure ChatCompletionResponse where
  Choices : List ChatCompletionChoice

/-- The constant `openai.GPT4`. -/
def GPT4 : GoString := ascii "gpt-4"

/-- A JSON value, as `encoding/json` produces it from the values the handlers pass to `c.JSON`. -/
inductive Json where
  | null : Json
  | str : GoString → Json
  | num : Int → Json
  | time : Int → Json
  | arr : List Json → Json
  | obj : List (GoString × Json) → Json

/-- Encoding of a `[]string`: a `nil` slice encodes as `null`, any other as an array. -/
def marshalStrings : GoSlice GoString → Json
  | none => Json.null
  | some xs => Json.arr (xs.map Json.str)

/-- Encoding of a `Plan`: one member per field, named by its `json` tag, in declaration order. -/
def marshalPlan (p : Plan) : Json :=
  Json.obj [(ascii "id", Json.num p.ID), (ascii "goal", Json.str p.Goal),
    (ascii "tasks", marshalStrings p.Tasks), (ascii "feedback", Json.str p.Feedback),
    (ascii "created_at", Json.time p.CreatedAt)]

/-- Encoding of a `[]Plan`: a `nil` slice encodes as `null`, any other as an array. -/
def marshalPlans : GoSlice Plan → Json
  | none => Json.null
  | some ps => Json.arr (ps.map marshalPlan)

/-- Whether a JSON value is an array. -/
def Json.isArray : Json → Bool
  | Json.arr _ => true
  | _ => false

/-- What `c.JSON(status, body)` writes. -/
structure Response where
  status : Nat
  body : Json

/-- The body `gin.H{"error": msg}`. -/
def errorBody (msg : GoString) : Json := Json.obj [(ascii "error", Json.str msg)]

/-- An external call made by a handler. -/
inductive Event where
  | CreateChatCompletion : ChatCompletionRequest → Event
  | Exec : GoString → GoString → GoString → Event
  | Query : Event
  | LogPrintln : GoString → Event

/-- Whether an event is the `db.Exec` call of `savePlan`. -/
def Event.isExec : Event → Bool
  | Event.Exec _ _ _ => true
  | _ => false

/-- Whether an event is a completion call. -/
def Event.isCompletion : Event → Bool
  | Event.CreateChatCompletion _ => true
  | _ => false

/-- How a handler ends: it wrote a response, or it stopped with the run-time panic
`index out of range [0] with length 0` before writing one. -/
inductive Ending where
  | responded : Response → Ending
  | indexOutOfRange : Ending

/-- One run of a handler: its ending and the external calls made, in order. -/
structure Run where
  ending : Ending
  trace : List Event

/-! ## The handlers -/

/-- The completion request built by `handleAnalyze`. -/
def analyzeCompletionRequest (req : AnalyzeRequest) : ChatCompletionRequest :=
  { Model := GPT4
    Messages :=
      [⟨ascii "system", ascii "You are a productivity expert helping improve weekly plans."⟩,
       ⟨ascii "user", analyzePrompt req.Title req.Steps⟩] }

/-- The handler `handleAnalyze`. `bind` is what `c.ShouldBindJSON(&req)` yields,
`create` is `client.CreateChatCompletion`, `exec` is `db.Exec` of the insert.
`resp.Choices[0]` on an empty `Choices` is the index panic. The members of a
`gin.H` body are listed by key in increasing order, as `encoding/json` writes a map. -/
def handleAnalyze (bind : Except GoString AnalyzeRequest)
    (create : ChatCompletionRequest → Except GoString ChatCompletionResponse)
    (exec : GoString → GoString → GoString → Option GoString) : Run :=
  match bind with
  | .error _ => ⟨.responded ⟨400, errorBody (ascii "Invalid request JSON")⟩, []⟩
  | .ok req =>
    let creq := analyzeCompletionRequest req
    match create creq with
    | .error err => ⟨.responded ⟨500, errorBody err⟩, [.CreateChatCompletion creq]⟩
    | .ok resp =>
      match resp.Choices with
      | [] => ⟨.indexOutOfRange, [.CreateChatCompletion creq]⟩
      | choice :: _ =>
        let suggestions := choice.Message.Content
        let saved := [Event.CreateChatCompletion creq,
          Event.Exec req.Title (strings.Join (GoSlice.toList req.Steps) [comma]) suggestions]
        let trace := match savePlan exec req.Title req.Steps suggestions with
          | some err => saved ++ [Event.LogPrintln err]
          | none => saved
        ⟨.responded ⟨200, Json.obj [(ascii "steps", marshalStrings req.Steps),
            (ascii "suggestions", Json.str suggestions),
            (ascii "title", Json.str req.Title)]⟩, trace⟩

/-- The completion request built by `handleUpload`. -/
def uploadCompletionRequest (content : GoString) : ChatCompletionRequest :=
  { Model := GPT4
    Messages :=
      [⟨ascii "system", ascii "You're a helpful assistant summarizing and giving insights from user-uploaded documents."⟩,
       ⟨ascii "user", uploadPrompt content⟩] }

/-- The handler `handleUpload`. `formFile` is what `c.Request.FormFile("file")` yields:
an error, or a file given by what reading it whole returns. -/
def handleUpload (formFile : Except GoString (Except GoString GoString))
    (create : ChatCompletionRequest → Except GoString ChatCompletionResponse) : Run :=
  match formFile with
  | .error _ => ⟨.responded ⟨400, errorBody (ascii "Missing file")⟩, []⟩
  | .ok file =>
    match readText file with
    | .error _ => ⟨.responded ⟨500, errorBody (ascii "Could not read file")⟩, []⟩
    | .ok content =>
      let creq := uploadCompletionRequest content
      match create creq with
      | .error err => ⟨.responded ⟨500, errorBody err⟩, [.CreateChatCompletion creq]⟩
      | .ok resp =>
        match resp.Choices with
        | [] => ⟨.indexOutOfRange, [.CreateChatCompletion creq]⟩
        | choice :: _ =>
          ⟨.responded ⟨200, Json.obj [(ascii "summary", Json.str choice.Message.Content)]⟩,
            [.CreateChatCompletion creq]⟩

/-- The values `rows.Scan` stores on success, in the order of the `SELECT` list. -/
structure Scanned where
  ID : Int
  Goal : GoString
  tasksRaw : GoString
  Feedback : GoString
  CreatedAt : Int

/-- The plan built in one iteration from what `rows.Scan` stored: the scanned
fields, and `p.Tasks = parseTaskArray(tasksRaw)`. -/
def planOfScanned (v : Scanned) : Plan :=
  { ID := v.ID, Goal := v.Goal, Tasks := parseTaskArray v.tasksRaw,
    Feedback := v.Feedback, CreatedAt := v.CreatedAt }

/-- One iteration of the loop `for rows.Next()` of `handleGetPlans`: a failed scan
leaves `plans` as it is (`continue`), a successful one appends the plan. -/
def scanStep {Row : Type} (scan : Row → Except GoString Scanned)
    (plans : GoSlice Plan) (row : Row) : GoSlice Plan :=
  match scan row with
  | .error _ => plans
  | .ok v => goAppend plans (planOfScanned v)

/-- The value of `plans` after the loop of `handleGetPlans` (it starts as the `nil` slice). -/
def decodeRows {Row : Type} (scan : Row → Except GoString Scanned) (rows : List Row) :
    GoSlice Plan :=
  rows.foldl (scanStep scan) none

/-- The handler `handleGetPlans`. `query` is what `db.Query` yields (an error, or the
rows in the order the database returns them), `scan` is `rows.Scan` on one row. -/
def handleGetPlans {Row : Type} (query : Except GoString (List Row))
    (scan : Row → Except GoString Scanned) : Run :=
  match query with
  | .error _ => ⟨.responded ⟨500, errorBody (ascii "Failed to fetch plans")⟩, [.Query]⟩
  | .ok rows => ⟨.responded ⟨200, marshalPlans (decodeRows scan rows)⟩, [.Query]⟩

/-! ## A concrete result set, for evaluating `handleGetPlans` -/

/-- A row of the table `plans` as the database holds it: every column may be `NULL`. -/
structure DbRow where
  id : Option Int
  goal : Option GoString
  tasks : Option GoString
  feedback : Option GoString
  created_at : Option Int

/-- The call `rows.Scan(&p.ID, &p.Goal, &tasksRaw, &p.Feedback, &p.CreatedAt)` on such a row:
`database/sql` refuses to store `NULL` in an `int`, a `string` or a `time.Time`. -/
def scanDbRow (r : DbRow) : Except GoString Scanned :=
  match r.id, r.goal, r.tasks, r.feedback, r.created_at with
  | some i, some g, some t, some f, some c =>
    .ok { ID := i, Goal := g, tasksRaw := t, Feedback := f, CreatedAt := c }
  | _, _, _, _, _ => .error (ascii "sql: Scan error: converting NULL is unsupported")

/-! ## An auxiliary reading of `strings.Split` -/

/-- The recursive reading of a split at the byte `sep`, used to reason about `strings.Split`. -/
def splitRec (sep : UInt8) : GoString → List GoString
  | [] => [[]]
  | b :: bs =>
    if b = sep then [] :: splitRec sep bs
    else
      match splitRec sep bs with
      | [] => [[b]]
      | h :: t => (b :: h) :: t

/-! ## Lemmas on `strings.Join` and `strings.Split` -/

theorem splitRec_ne_nil (sep : UInt8) (s : GoString) : splitRec sep s ≠ [] := by
  induction s with
  | nil => simp [splitRec]
  | cons b bs ih =>
    unfold splitRec
    split
    · simp
    · split <;> simp

theorem splitRec_of_not_mem (sep : UInt8) (s : GoString) (h : sep ∉ s) :
    splitRec sep s = [s] := by
  induction s with
  | nil => rfl
  | cons b bs ih =>
    have hb : b ≠ sep := fun e => h (by simp [e])
    have hbs : sep ∉ bs := fun e => h (by simp [e])
    simp [splitRec, hb, ih hbs]

theorem splitRec_append_sep (sep : UInt8) (a b : GoString) (h : sep ∉ a) :
    splitRec sep (a ++ sep :: b) = a :: splitRec sep b := by
  induction a with
  | nil => simp [splitRec]
  | cons x xs ih =>
    have hx : x ≠ sep := fun e => h (by simp [e])
    have hxs : sep ∉ xs := fun e => h (by simp [e])
    simp [splitRec, hx, ih hxs]

theorem length_splitRec (sep : UInt8) (s : GoString) :
    (splitRec sep s).length = s.count sep + 1 := by
  induction s with
  | nil => rfl
  | cons b bs ih =>
    unfold splitRec
    by_cases hb : b = sep
    · simp [hb, ih]
    · have hne := splitRec_ne_nil sep bs
      cases hs : splitRec sep bs with
      | nil => exact absurd hs hne
      | cons h t =>
        rw [hs] at ih
        simp [hb, List.count_cons] at ih ⊢
        omega

theorem not_mem_of_mem_splitRec (sep : UInt8) (s : GoString) :
    ∀ x ∈ splitRec sep s, sep ∉ x := by
  induction s with
  | nil => simp [splitRec]
  | cons b bs ih =>
    unfold splitRec
    by_cases hb : b = sep
    · simpa [hb] using ih
    · cases hs : splitRec sep bs with
      | nil => simp [hb, Ne.symm hb]
      | cons h t =>
        rw [hs] at ih
        intro x hx
        simp [hb] at hx
        rcases hx with rfl | hx
        · have := ih h (by simp)
          simp [this, Ne.symm hb]
        · exact ih x (by simp [hx])

theorem Join_cons_cons (e e2 : GoString) (es : List GoString) (sep : GoString) :
    strings.Join (e :: e2 :: es) sep = e ++ sep ++ strings.Join (e2 :: es) sep := by
  have key : ∀ (l : List GoString) (a x : GoString),
      l.foldl (fun b s => b ++ sep ++ s) (a ++ x) = a ++ l.foldl (fun b s => b ++ sep ++ s) x := by
    intro l
    induction l with
    | nil => intro a x; rfl
    | cons y ys ih =>
      intro a x
      simp only [List.foldl_cons]
      rw [List.append_assoc a x sep, List.append_assoc a (x ++ sep) y, ih]
  simp only [strings.Join, List.foldl_cons]
  rw [List.append_assoc e sep e2, key, key, List.append_assoc]

theorem Join_splitRec (sep : UInt8) (s : GoString) :
    strings.Join (splitRec sep s) [sep] = s := by
  induction s with
  | nil => rfl
  | cons b bs ih =>
    unfold splitRec
    by_cases hb : b = sep
    · have hne := splitRec_ne_nil sep bs
      cases hs : splitRec sep bs with
      | nil => exact absurd hs hne
      | cons h t =>
        rw [hs] at ih
        simp only [hb, if_true]
        rw [Join_cons_cons, ih]
        simp
    · have hne := splitRec_ne_nil sep bs
      cases hs : splitRec sep bs with
      | nil => exact absurd hs hne
      | cons h t =>
        rw [hs] at ih
        simp only [hb, if_false]
        cases t with
        | nil =>
          simp only [strings.Join, List.foldl_nil] at ih ⊢
          rw [ih]
        | cons t1 ts =>
          rw [Join_cons_cons] at ih ⊢
          rw [← ih]
          simp

theorem not_mem_of_Index_none (sep : UInt8) (s : GoString) (h : strings.Index s sep = none) :
    sep ∉ s := by
  induction s with
  | nil => simp
  | cons b bs ih =>
    unfold strings.Index at h
    by_cases hb : b = sep
    · simp [hb] at h
    · simp only [hb, if_false, Option.map_eq_none'] at h
      simp [Ne.symm hb, ih h]

theorem Index_some (sep : UInt8) (s : GoString) (m : Nat) (h : strings.Index s sep = some m) :
    sep ∉ s.take m ∧ s = s.take m ++ sep :: s.drop (m + 1) := by
  induction s generalizing m with
  | nil => simp [strings.Index] at h
  | cons b bs ih =>
    unfold strings.Index at h
    by_cases hb : b = sep
    · simp [hb] at h
      subst h
      simp [hb]
    · simp only [hb, if_false, Option.map_eq_some'] at h
      obtain ⟨k, hk, rfl⟩ := h
      obtain ⟨h1, h2⟩ := ih k hk
      refine ⟨?_, ?_⟩
      · simp [List.take_succ_cons, h1, Ne.symm hb]
      · simp only [List.take_succ_cons, List.drop_succ_cons, List.cons_append]
        rw [← h2]

theorem genSplitLoop_eq_splitRec (sep : UInt8) (k : Nat) (s : GoString)
    (h : s.count sep ≤ k) : strings.genSplitLoop sep k s = splitRec sep s := by
  induction k generalizing s with
  | zero =>
    have hc : sep ∉ s := by
      intro hm
      have := List.count_pos_iff.mpr hm
      omega
    simp [strings.genSplitLoop, splitRec_of_not_mem sep s hc]
  | succ k ih =>
    unfold strings.genSplitLoop
    cases hi : strings.Index s sep with
    | none =>
      have hc : sep ∉ s := not_mem_of_Index_none sep s hi
      simp [splitRec_of_not_mem sep s hc]
    | some m =>
      obtain ⟨h1, h2⟩ := Index_some sep s m hi
      have hcount : (s.drop (m + 1)).count sep ≤ k := by
        have hc := congrArg (List.count sep) h2
        rw [List.count_append, List.count_cons_self, List.count_eq_zero_of_not_mem h1] at hc
        omega
      simp only
      rw [ih _ hcount]
      conv_rhs => rw [h2]
      rw [splitRec_append_sep sep _ _ h1]

/-- The model of `strings.Split` agrees with the recursive reading on every input. -/
theorem Split_eq_splitRec (s : GoString) (sep : UInt8) :
    strings.Split s sep = splitRec sep s := by
  unfold strings.Split strings.Count
  apply genSplitLoop_eq_splitRec
  have := List.count_le_length sep s
  split <;> omega

theorem splitRec_Join (sep : UInt8) (steps : List GoString) (hne : steps ≠ [])
    (h : ∀ s ∈ steps, sep ∉ s) : splitRec sep (strings.Join steps [sep]) = steps := by
  induction steps with
  | nil => exact absurd rfl hne
  | cons e es ih =>
    have he : sep ∉ e := h e (by simp)
    cases es with
    | nil => simpa [strings.Join] using splitRec_of_not_mem sep e he
    | cons e2 es2 =>
      have ih2 := ih (by simp) (fun s hs => h s (by simp [hs]))
      rw [Join_cons_cons]
      simp only [List.append_assoc, List.singleton_append]
      rw [splitRec_append_sep sep _ _ he, ih2]

theorem count_Join (sep : UInt8) (steps : List GoString) (hne : steps ≠ []) :
    (strings.Join steps [sep]).count sep + 1
      = steps.length + (steps.map (List.count sep)).sum := by
  induction steps with
  | nil => exact absurd rfl hne
  | cons e es ih =>
    cases es with
    | nil => simp [strings.Join]; omega
    | cons e2 es2 =>
      have ih2 := ih (by simp)
      rw [Join_cons_cons]
      simp only [List.count_append, List.count_singleton_self, List.length_cons, List.map_cons,
        List.sum_cons] at ih2 ⊢
      omega

theorem Join_eq_nil (sep : UInt8) (steps : List GoString) (h : strings.Join steps [sep] = []) :
    steps = [] ∨ steps = [[]] := by
  cases steps with
  | nil => exact Or.inl rfl
  | cons e es =>
    cases es with
    | nil => simp [strings.Join] at h; simp [h]
    | cons e2 es2 => rw [Join_cons_cons] at h; simp at h

theorem parseTaskArray_toList (s : GoString) (h : s ≠ []) :
    GoSlice.toList (parseTaskArray s) = splitRec comma s := by
  simp [parseTaskArray, h, GoSlice.toList, Split_eq_splitRec]

/-! ## Storage of the tasks: `savePlan` then `parseTaskArray` -/

/-- C1, as stated, fails: the sequence holding one empty step has no comma in any
step, is stored as the empty text, and is read back as the empty sequence. -/
theorem roundtrip_single_empty_step_lost :
    (∀ s ∈ ([[]] : List GoString), comma ∉ s) ∧
      GoSlice.toList (parseTaskArray (strings.Join [[]] [comma])) = [] ∧
      GoSlice.toList (parseTaskArray (strings.Join [[]] [comma])) ≠ [[]] := by
  decide

/-- C1, amended: for every sequence of steps in which no step contains a comma,
other than the sequence made of one empty step, reading back what `savePlan`
stores, `parseTaskArray (strings.Join steps ",")`, gives the original sequence. -/
theorem roundtrip_tasks (steps : List GoString) (h : ∀ s ∈ steps, comma ∉ s)
    (hne : steps ≠ [[]]) :
    GoSlice.toList (parseTaskArray (strings.Join steps [comma])) = steps := by
  by_cases hs : steps = []
  · subst hs
    rfl
  · have hj : strings.Join steps [comma] ≠ [] := by
      intro hj
      rcases Join_eq_nil comma steps hj with h1 | h1
      · exact hs h1
      · exact hne h1
    rw [parseTaskArray_toList _ hj]
    exact splitRec_Join comma steps hs h

theorem roundtrip_tasks_witness :
    GoSlice.toList (parseTaskArray
        (strings.Join [ascii "Plan meals", ascii "", ascii "Exercise"] [comma]))
      = [ascii "Plan meals", ascii "", ascii "Exercise"] :=
  roundtrip_tasks [ascii "Plan meals", ascii "", ascii "Exercise"] (by decide) (by decide)

/-- C8: when at least one step contains a comma, reading back the stored text gives
`len(steps)` plus the number of commas inside the steps entries, which is strictly
more than `len(steps)`; no entry read back contains a comma, and the sequence read
back differs from the original. -/
theorem delimiter_splits_steps (steps : List GoString) (h : ∃ s ∈ steps, comma ∈ s) :
    (GoSlice.toList (parseTaskArray (strings.Join steps [comma]))).length
        = steps.length + (steps.map (List.count comma)).sum ∧
      steps.length < (GoSlice.toList (parseTaskArray (strings.Join steps [comma]))).length ∧
      (∀ x ∈ GoSlice.toList (parseTaskArray (strings.Join steps [comma])), comma ∉ x) ∧
      GoSlice.toList (parseTaskArray (strings.Join steps [comma])) ≠ steps := by
  obtain ⟨s, hs, hc⟩ := h
  have hne : steps ≠ [] := by
    intro e
    simp [e] at hs
  have hpos : 0 < (steps.map (List.count comma)).sum := by
    have h1 : 0 < s.count comma := List.count_pos_iff.mpr hc
    have h2 : s.count comma ≤ (steps.map (List.count comma)).sum :=
      List.single_le_sum (by simp) _ (List.mem_map_of_mem _ hs)
    omega
  have hcount := count_Join comma steps hne
  have hj : strings.Join steps [comma] ≠ [] := by
    intro e
    rw [e] at hcount
    have h0 : ([] : GoString).count comma = 0 := rfl
    have h1 : 0 < steps.length := List.length_pos.mpr hne
    omega
  have hlen : (GoSlice.toList (parseTaskArray (strings.Join steps [comma]))).length
      = steps.length + (steps.map (List.count comma)).sum := by
    rw [parseTaskArray_toList _ hj, length_splitRec, hcount]
  refine ⟨hlen, by omega, ?_, ?_⟩
  · rw [parseTaskArray_toList _ hj]
    exact not_mem_of_mem_splitRec comma _
  · intro e
    rw [e] at hlen
    omega

theorem delimiter_splits_steps_witness :
    (GoSlice.toList (parseTaskArray
        (strings.Join [ascii "Buy eggs, milk", ascii "Cook"] [comma]))).length = 2 + 1 ∧
      GoSlice.toList (parseTaskArray (strings.Join [ascii "Buy eggs, milk", ascii "Cook"] [comma]))
        = [ascii "Buy eggs", ascii " milk", ascii "Cook"] :=
  ⟨(delimiter_splits_steps [ascii "Buy eggs, milk", ascii "Cook"]
      ⟨ascii "Buy eggs, milk", by decide, by decide⟩).1, by decide⟩

/-- C10: for every string `s`, joining `parseTaskArray s` with `","` gives `s` back;
`parseTaskArray ""` is the empty (non-nil) sequence; for a non-empty `s` the result
has (number of commas in `s`) + 1 entries; no entry contains a comma. -/
theorem parseTaskArray_lossless (s : GoString) :
    strings.Join (GoSlice.toList (parseTaskArray s)) [comma] = s ∧
      parseTaskArray [] = some [] ∧
      (s ≠ [] → (GoSlice.toList (parseTaskArray s)).length = s.count comma + 1) ∧
      (∀ x ∈ GoSlice.toList (parseTaskArray s), comma ∉ x) := by
  by_cases hs : s = []
  · subst hs
    exact ⟨rfl, rfl, fun h => absurd rfl h, by simp [parseTaskArray, GoSlice.toList]⟩
  · rw [parseTaskArray_toList s hs]
    exact ⟨Join_splitRec comma s, rfl, fun _ => length_splitRec comma s,
      not_mem_of_mem_splitRec comma s⟩

theorem parseTaskArray_lossless_witness :
    (GoSlice.toList (parseTaskArray (ascii "a,,b"))).length = 2 + 1 ∧
      GoSlice.toList (parseTaskArray (ascii "a,,b")) = [ascii "a", [], ascii "b"] :=
  ⟨by simpa using (parseTaskArray_lossless (ascii "a,,b")).2.2.1 (by decide), by decide⟩

theorem digitChar_ne_newline : ∀ d, d < 10 → (Nat.digitChar d).toNat.toUInt8 ≠ newline := by
  decide

theorem toDigitsCore_ne_newline (fuel n : Nat) (ds : List Char)
    (h : ∀ c ∈ ds, c.toNat.toUInt8 ≠ newline) :
    ∀ c ∈ Nat.toDigitsCore 10 fuel n ds, c.toNat.toUInt8 ≠ newline := by
  induction fuel generalizing n ds with
  | zero => simpa [Nat.toDigitsCore] using h
  | succ f ih =>
    have hd : ∀ c ∈ Nat.digitChar (n % 10) :: ds, c.toNat.toUInt8 ≠ newline := by
      intro c hc
      rcases List.mem_cons.mp hc with rfl | hc
      · exact digitChar_ne_newline _ (Nat.mod_lt _ (by decide))
      · exact h c hc
    unfold Nat.toDigitsCore
    simp only
    split
    · exact hd
    · exact ih _ _ hd

theorem newline_not_mem_decimal (n : Nat) : newline ∉ decimal n := by
  intro h
  simp only [decimal, List.mem_map] at h
  obtain ⟨c, hc, he⟩ := h
  exact toDigitsCore_ne_newline _ _ [] (by simp) c hc he

theorem joinStepsLoop_eq (steps : List GoString) (i : Nat) (acc : GoString) :
    joinStepsLoop i steps acc
      = acc ++ (((steps.enumFrom i).map
          (fun p => decimal (p.1 + 1) ++ ascii ". " ++ p.2)).map (fun l => l ++ [newline])).flatten := by
  induction steps generalizing i acc with
  | nil => simp [joinStepsLoop]
  | cons s ss ih =>
    simp only [joinStepsLoop, ih, List.enumFrom_cons, List.map_cons, List.flatten_cons, sprintfStep]
    simp

theorem joinedSteps_eq (steps : GoSlice GoString) :
    joinedSteps steps = numberedBlock (GoSlice.toList steps) := by
  simp [joinedSteps, joinStepsLoop_eq, numberedBlock, numberedLines, List.enum]

theorem count_newline_lines (lines : List GoString) (h : ∀ l ∈ lines, newline ∉ l) :
    List.count newline ((lines.map (fun l => l ++ [newline])).flatten) = lines.length := by
  induction lines with
  | nil => rfl
  | cons l ls ih =>
    have hl : newline ∉ l := h l (by simp)
    have ih2 := ih (fun x hx => h x (by simp [hx]))
    simp only [List.map_cons, List.flatten_cons, List.count_append, List.count_singleton_self,
      List.length_cons, ih2, List.count_eq_zero_of_not_mem hl]
    omega

theorem newline_not_mem_numberedLines (steps : List GoString) (h : ∀ s ∈ steps, newline ∉ s) :
    ∀ l ∈ numberedLines steps, newline ∉ l := by
  intro l hl
  simp only [numberedLines, List.mem_map] at hl
  obtain ⟨p, hp, rfl⟩ := hl
  have hs : p.2 ∈ steps := by
    have hm := (List.mem_enumFrom hp).2.2
    rw [hm]
    exact List.getElem_mem _
  have h1 := newline_not_mem_decimal (p.1 + 1)
  have h2 : newline ∉ ascii ". " := by decide
  simp [h1, h2, h p.2 hs]

/-! ## The prompt of `handleAnalyze` -/

/-- C2: for every title and every sequence of N steps (N may be 0) the prompt of
`handleAnalyze` is the fixed opening with the title verbatim, then, as one
contiguous block, the lines `decimal (i+1) ++ ". " ++ steps[i] ++ "\n"` for
`i = 0 .. N-1` in order, then the fixed closing; when no step contains a newline the
block holds exactly N newlines, one at the end of each of its N numbered lines. -/
theorem analyzePrompt_numbered_block (title : GoString) (steps : GoSlice GoString) :
    analyzePrompt title steps
        = ascii "Here is a weekly plan titled \"" ++ title ++ ascii "\" with steps:\n"
          ++ numberedBlock (GoSlice.toList steps)
          ++ ascii "\n\nPlease provide suggestions to improve this plan in a numbered list." ∧
      numberedBlock (GoSlice.toList steps) <:+: analyzePrompt title steps ∧
      numberedBlock (GoSlice.toList steps)
        = ((numberedLines (GoSlice.toList steps)).map (fun l => l ++ [newline])).flatten ∧
      (numberedLines (GoSlice.toList steps)).length = (GoSlice.toList steps).length ∧
      (∀ i step, (GoSlice.toList steps)[i]? = some step →
        (numberedLines (GoSlice.toList steps))[i]? = some (decimal (i + 1) ++ ascii ". " ++ step)) ∧
      ((∀ s ∈ GoSlice.toList steps, newline ∉ s) →
        (∀ l ∈ numberedLines (GoSlice.toList steps), newline ∉ l) ∧
        List.count newline (numberedBlock (GoSlice.toList steps)) = (GoSlice.toList steps).length) := by
  have hp : analyzePrompt title steps
        = ascii "Here is a weekly plan titled \"" ++ title ++ ascii "\" with steps:\n"
          ++ numberedBlock (GoSlice.toList steps)
          ++ ascii "\n\nPlease provide suggestions to improve this plan in a numbered list." := by
    simp only [analyzePrompt, joinedSteps_eq]
  have hlen : (numberedLines (GoSlice.toList steps)).length = (GoSlice.toList steps).length := by
    simp [numberedLines]
  refine ⟨hp, ⟨_, _, hp.symm⟩, rfl, hlen, ?_, ?_⟩
  · intro i step hi
    simp [numberedLines, List.enum, List.getElem?_enumFrom, hi]
  · intro h
    refine ⟨newline_not_mem_numberedLines _ h, ?_⟩
    rw [numberedBlock, count_newline_lines _ (newline_not_mem_numberedLines _ h), hlen]

theorem analyzePrompt_numbered_block_witness :
    ascii "1. Plan meals\n2. Exercise\n"
        <:+: analyzePrompt (ascii "Week 1") (some [ascii "Plan meals", ascii "Exercise"]) ∧
      List.count newline (ascii "1. Plan meals\n2. Exercise\n") = 2 := by
  have h := analyzePrompt_numbered_block (ascii "Week 1")
    (some [ascii "Plan meals", ascii "Exercise"])
  have hb : numberedBlock (GoSlice.toList (some [ascii "Plan meals", ascii "Exercise"]))
      = ascii "1. Plan meals\n2. Exercise\n" := by decide
  rw [hb] at h
  exact ⟨h.2.1, (h.2.2.2.2.2 (by decide)).2⟩

/-! ## `handleAnalyze` and `handleUpload` -/

/-- C3: for every request that binds and whose completion call returns a first
choice with text `s`, `handleAnalyze` answers 200 with the body
`{steps, suggestions = s, title}`, and the answer under an `exec` that fails is the
same as under one that succeeds (here: under any two behaviours of `db.Exec`). -/
theorem handleAnalyze_best_effort_persistence (req : AnalyzeRequest)
    (create : ChatCompletionRequest → Except GoString ChatCompletionResponse)
    (exec₁ exec₂ : GoString → GoString → GoString → Option GoString)
    (resp : ChatCompletionResponse) (choice : ChatCompletionChoice)
    (rest : List ChatCompletionChoice)
    (hok : create (analyzeCompletionRequest req) = .ok resp)
    (hchoice : resp.Choices = choice :: rest) :
    (handleAnalyze (.ok req) create exec₁).ending
        = .responded ⟨200, Json.obj [(ascii "steps", marshalStrings req.Steps),
            (ascii "suggestions", Json.str choice.Message.Content),
            (ascii "title", Json.str req.Title)]⟩ ∧
      (handleAnalyze (.ok req) create exec₂).ending
        = (handleAnalyze (.ok req) create exec₁).ending := by
  simp only [handleAnalyze, hok, hchoice, and_self]

theorem handleAnalyze_best_effort_persistence_witness :
    (handleAnalyze (.ok ⟨ascii "Week 1", some [ascii "Plan meals", ascii "Exercise"]⟩)
        (fun _ => .ok ⟨[⟨⟨ascii "assistant", ascii "1. Sleep more"⟩⟩]⟩)
        (fun _ _ _ => some (ascii "connection lost"))).ending
      = .responded ⟨200, Json.obj
          [(ascii "steps", Json.arr [Json.str (ascii "Plan meals"), Json.str (ascii "Exercise")]),
           (ascii "suggestions", Json.str (ascii "1. Sleep more")),
           (ascii "title", Json.str (ascii "Week 1"))]⟩ ∧
    (handleAnalyze (.ok ⟨ascii "Week 1", some [ascii "Plan meals", ascii "Exercise"]⟩)
        (fun _ => .ok ⟨[⟨⟨ascii "assistant", ascii "1. Sleep more"⟩⟩]⟩)
        (fun _ _ _ => none)).ending
      = (handleAnalyze (.ok ⟨ascii "Week 1", some [ascii "Plan meals", ascii "Exercise"]⟩)
        (fun _ => .ok ⟨[⟨⟨ascii "assistant", ascii "1. Sleep more"⟩⟩]⟩)
        (fun _ _ _ => some (ascii "connection lost"))).ending :=
  handleAnalyze_best_effort_persistence
    ⟨ascii "Week 1", some [ascii "Plan meals", ascii "Exercise"]⟩
    (fun _ => .ok ⟨[⟨⟨ascii "assistant", ascii "1. Sleep more"⟩⟩]⟩)
    (fun _ _ _ => some (ascii "connection lost")) (fun _ _ _ => none)
    ⟨[⟨⟨ascii "assistant", ascii "1. Sleep more"⟩⟩]⟩ ⟨⟨ascii "assistant", ascii "1. Sleep more"⟩⟩ []
    rfl rfl

/-- C4, the code at the failing input: when the completion call returns no error
and an empty list of choices, `handleAnalyze` and `handleUpload` both stop with the
panic `index out of range` at `resp.Choices[0]`; neither writes a response. -/
theorem empty_choices_index_out_of_range (req : AnalyzeRequest)
    (exec : GoString → GoString → GoString → Option GoString) (content : GoString) :
    handleAnalyze (.ok req) (fun _ => .ok ⟨[]⟩) exec
        = ⟨.indexOutOfRange, [.CreateChatCompletion (analyzeCompletionRequest req)]⟩ ∧
      handleUpload (.ok (.ok content)) (fun _ => .ok ⟨[]⟩)
        = ⟨.indexOutOfRange, [.CreateChatCompletion (uploadCompletionRequest content)]⟩ :=
  ⟨rfl, rfl⟩

/-- C5: (a) when the body does not bind, `handleAnalyze` answers 400 with the single
field `error` and makes no external call; (b) when the body binds and the completion
call fails with `e`, it answers 500 with `error = e` and its only external call is
the completion call; (c) whenever the trace holds the `db.Exec` of `savePlan`, the
body had bound, the completion call had returned a first choice, and the trace
starts with that completion call followed by the `db.Exec` of the request's title,
its joined steps and the text of that choice. -/
theorem handleAnalyze_terminal_failures (bind : Except GoString AnalyzeRequest)
    (create : ChatCompletionRequest → Except GoString ChatCompletionResponse)
    (exec : GoString → GoString → GoString → Option GoString) :
    (∀ e, bind = .error e →
        handleAnalyze bind create exec
          = ⟨.responded ⟨400, Json.obj [(ascii "error", Json.str (ascii "Invalid request JSON"))]⟩,
              []⟩) ∧
      (∀ req e, bind = .ok req → create (analyzeCompletionRequest req) = .error e →
        handleAnalyze bind create exec
          = ⟨.responded ⟨500, Json.obj [(ascii "error", Json.str e)]⟩,
              [.CreateChatCompletion (analyzeCompletionRequest req)]⟩) ∧
      ((∃ ev ∈ (handleAnalyze bind create exec).trace, ev.isExec = true) →
        ∃ req resp choice rest, bind = .ok req ∧
          create (analyzeCompletionRequest req) = .ok resp ∧
          resp.Choices = choice :: rest ∧
          (handleAnalyze bind create exec).trace.take 2
            = [.CreateChatCompletion (analyzeCompletionRequest req),
               .Exec req.Title (strings.Join (GoSlice.toList req.Steps) [comma])
                 choice.Message.Content]) := by
  refine ⟨?_, ?_, ?_⟩
  · rintro e rfl
    rfl
  · rintro req e rfl he
    simp only [handleAnalyze, he, errorBody]
  · rintro ⟨ev, hev, hx⟩
    cases bind with
    | error e => simp [handleAnalyze] at hev
    | ok req =>
      cases hc : create (analyzeCompletionRequest req) with
      | error e =>
        simp only [handleAnalyze, hc, List.mem_singleton] at hev
        subst hev
        simp [Event.isExec] at hx
      | ok resp =>
        cases hch : resp.Choices with
        | nil =>
          simp only [handleAnalyze, hc, hch, List.mem_singleton] at hev
          subst hev
          simp [Event.isExec] at hx
        | cons choice rest =>
          refine ⟨req, resp, choice, rest, rfl, hc, hch, ?_⟩
          simp only [handleAnalyze, hc, hch]
          split <;> rfl

theorem handleAnalyze_terminal_failures_witness :
    handleAnalyze (.ok ⟨ascii "Week 1", some [ascii "Plan meals"]⟩)
        (fun _ => .error (ascii "status code: 401")) (fun _ _ _ => none)
      = ⟨.responded ⟨500, Json.obj [(ascii "error", Json.str (ascii "status code: 401"))]⟩,
          [.CreateChatCompletion
            (analyzeCompletionRequest ⟨ascii "Week 1", some [ascii "Plan meals"]⟩)]⟩ ∧
    handleAnalyze (.error (ascii "unexpected EOF"))
        (fun _ => .error (ascii "status code: 401")) (fun _ _ _ => none)
      = ⟨.responded ⟨400, Json.obj [(ascii "error", Json.str (ascii "Invalid request JSON"))]⟩,
          []⟩ ∧
    (handleAnalyze (.ok ⟨ascii "Week 1", some [ascii "Plan meals"]⟩)
        (fun _ => .ok ⟨[⟨⟨ascii "assistant", ascii "ok"⟩⟩]⟩) (fun _ _ _ => none)).trace.take 2
      = [.CreateChatCompletion
            (analyzeCompletionRequest ⟨ascii "Week 1", some [ascii "Plan meals"]⟩),
         .Exec (ascii "Week 1") (ascii "Plan meals") (ascii "ok")] :=
  ⟨(handleAnalyze_terminal_failures (.ok ⟨ascii "Week 1", some [ascii "Plan meals"]⟩)
      (fun _ => .error (ascii "status code: 401")) (fun _ _ _ => none)).2.1
      ⟨ascii "Week 1", some [ascii "Plan meals"]⟩ (ascii "status code: 401") rfl rfl,
   (handleAnalyze_terminal_failures (.error (ascii "unexpected EOF"))
      (fun _ => .error (ascii "status code: 401")) (fun _ _ _ => none)).1
      (ascii "unexpected EOF") rfl,
   by
    obtain ⟨req, resp, choice, rest, hreq, hresp, hchoice, htrace⟩ :=
      (handleAnalyze_terminal_failures (.ok ⟨ascii "Week 1", some [ascii "Plan meals"]⟩)
        (fun _ => .ok ⟨[⟨⟨ascii "assistant", ascii "ok"⟩⟩]⟩) (fun _ _ _ => none)).2.2
        ⟨.Exec (ascii "Week 1") (ascii "Plan meals") (ascii "ok"),
          List.mem_cons_of_mem _ (List.mem_cons_self _ _), rfl⟩
    cases hreq
    cases hresp
    cases hchoice
    exact htrace⟩

/-- C6: when `c.Request.FormFile("file")` fails (the field `file` is missing),
`handleUpload` answers 400 with a body holding the field `error`, and makes no
external call, so no completion call. -/
theorem handleUpload_missing_file (err : GoString)
    (create : ChatCompletionRequest → Except GoString ChatCompletionResponse) :
    handleUpload (.error err) create
        = ⟨.responded ⟨400, Json.obj [(ascii "error", Json.str (ascii "Missing file"))]⟩, []⟩ ∧
      ∀ ev ∈ (handleUpload (.error err) create).trace, ev.isCompletion = false :=
  ⟨rfl, by simp [handleUpload]⟩

/-! ## `handleGetPlans` -/

theorem foldl_scanStep_toList {Row : Type} (scan : Row → Except GoString Scanned)
    (rows : List Row) (acc : GoSlice Plan) :
    GoSlice.toList (rows.foldl (scanStep scan) acc)
      = GoSlice.toList acc
        ++ (rows.filterMap (fun r => (scan r).toOption)).map planOfScanned := by
  induction rows generalizing acc with
  | nil => simp
  | cons r rs ih =>
    rw [List.foldl_cons, ih]
    cases hr : scan r with
    | error e => simp [scanStep, hr, Except.toOption]
    | ok v => simp [scanStep, hr, Except.toOption, goAppend, GoSlice.toList]

theorem decodeRows_toList {Row : Type} (scan : Row → Except GoString Scanned)
    (rows : List Row) :
    GoSlice.toList (decodeRows scan rows)
      = (rows.filterMap (fun r => (scan r).toOption)).map planOfScanned := by
  unfold decodeRows
  rw [foldl_scanStep_toList]
  rfl

theorem decodeRows_of_all_fail {Row : Type} (scan : Row → Except GoString Scanned)
    (rows : List Row) (h : ∀ r ∈ rows, (scan r).toOption = none) :
    decodeRows scan rows = none := by
  unfold decodeRows
  induction rows with
  | nil => rfl
  | cons r rs ih =>
    have hr : (scan r).toOption = none := h r (by simp)
    have hstep : scanStep scan none r = none := by
      unfold scanStep
      cases hs : scan r with
      | error e => rfl
      | ok v => simp [hs, Except.toOption] at hr
    rw [List.foldl_cons, hstep]
    exact ih (fun x hx => h x (by simp [hx]))

/-- C7: for every sequence of at most 20 rows returned by the query in descending
order of `created_at`, `handleGetPlans` answers 200 and the plans it returns are
exactly the rows whose scan succeeds, in the same relative order, each built from
the scanned fields with `Tasks = parseTaskArray tasksRaw`; rows whose scan fails
are left out without an error; so there are never more than 20 plans and they are
in descending order of `CreatedAt`. -/
theorem handleGetPlans_keeps_bound_and_order {Row : Type}
    (scan : Row → Except GoString Scanned) (rows : List Row) (created_at : Row → Int)
    (hlimit : rows.length ≤ 20)
    (hscan : ∀ r v, scan r = .ok v → v.CreatedAt = created_at r)
    (horder : rows.Pairwise (fun a b => created_at b ≤ created_at a)) :
    handleGetPlans (.ok rows) scan
        = ⟨.responded ⟨200, marshalPlans (decodeRows scan rows)⟩, [.Query]⟩ ∧
      GoSlice.toList (decodeRows scan rows)
        = (rows.filterMap (fun r => (scan r).toOption)).map planOfScanned ∧
      (∀ p ∈ GoSlice.toList (decodeRows scan rows),
        ∃ r ∈ rows, ∃ v, scan r = .ok v ∧ p.ID = v.ID ∧ p.Goal = v.Goal ∧
          p.Tasks = parseTaskArray v.tasksRaw ∧ p.Feedback = v.Feedback ∧
          p.CreatedAt = v.CreatedAt) ∧
      (GoSlice.toList (decodeRows scan rows)).length ≤ 20 ∧
      (GoSlice.toList (decodeRows scan rows)).Pairwise
        (fun p q => q.CreatedAt ≤ p.CreatedAt) := by
  have hmem : ∀ v ∈ rows.filterMap (fun r => (scan r).toOption),
      ∃ r ∈ rows, scan r = .ok v := by
    intro v hv
    obtain ⟨r, hr, hrv⟩ := List.mem_filterMap.mp hv
    refine ⟨r, hr, ?_⟩
    cases hs : scan r with
    | error e => simp [hs, Except.toOption] at hrv
    | ok w =>
      simp only [hs, Except.toOption, Option.some.injEq] at hrv
      rw [hrv]
  refine ⟨rfl, decodeRows_toList scan rows, ?_, ?_, ?_⟩
  · intro p hp
    rw [decodeRows_toList] at hp
    obtain ⟨v, hv, rfl⟩ := List.mem_map.mp hp
    obtain ⟨r, hr, hrv⟩ := hmem v hv
    exact ⟨r, hr, v, hrv, rfl, rfl, rfl, rfl, rfl⟩
  · rw [decodeRows_toList, List.length_map]
    exact le_trans (List.length_filterMap_le _ _) hlimit
  · rw [decodeRows_toList, List.pairwise_map]
    have hsub : (rows.filterMap (fun r => (scan r).toOption)).Pairwise
        (fun v w => w.CreatedAt ≤ v.CreatedAt) := by
      rw [List.pairwise_filterMap]
      refine horder.imp ?_
      intro a b hab v hv w hw
      have ha : scan a = .ok v := by
        cases hs : scan a with
        | error e => simp [hs, Except.toOption] at hv
        | ok x => simp only [hs, Except.toOption, Option.mem_def, Option.some.injEq] at hv; rw [hv]
      have hb : scan b = .ok w := by
        cases hs : scan b with
        | error e => simp [hs, Except.toOption] at hw
        | ok x => simp only [hs, Except.toOption, Option.mem_def, Option.some.injEq] at hw; rw [hw]
      rw [hscan a v ha, hscan b w hb]
      exact hab
    exact hsub

theorem handleGetPlans_keeps_bound_and_order_witness :
    GoSlice.toList (decodeRows scanDbRow
        [⟨some 3, some (ascii "c"), some (ascii "x,y"), some (ascii "f3"), some 30⟩,
         ⟨some 2, none, some (ascii "z"), some (ascii "f2"), some 20⟩,
         ⟨some 1, some (ascii "a"), some (ascii ""), some (ascii "f1"), some 10⟩])
      = [⟨3, ascii "c", some [ascii "x", ascii "y"], ascii "f3", 30⟩,
         ⟨1, ascii "a", some [], ascii "f1", 10⟩] ∧
    (GoSlice.toList (decodeRows scanDbRow
        [⟨some 3, some (ascii "c"), some (ascii "x,y"), some (ascii "f3"), some 30⟩,
         ⟨some 2, none, some (ascii "z"), some (ascii "f2"), some 20⟩,
         ⟨some 1, some (ascii "a"), some (ascii ""), some (ascii "f1"), some 10⟩])).Pairwise
      (fun p q => q.CreatedAt ≤ p.CreatedAt) :=
  ⟨by rfl,
   (handleGetPlans_keeps_bound_and_order scanDbRow
      [⟨some 3, some (ascii "c"), some (ascii "x,y"), some (ascii "f3"), some 30⟩,
       ⟨some 2, none, some (ascii "z"), some (ascii "f2"), some 20⟩,
       ⟨some 1, some (ascii "a"), some (ascii ""), some (ascii "f1"), some 10⟩]
      (fun r => r.created_at.getD 0) (by decide)
      (by
        intro r v h
        obtain ⟨i, g, t, f, c⟩ := r
        cases i <;> cases g <;> cases t <;> cases f <;> cases c <;>
          simp [scanDbRow] at h
        subst h
        rfl)
      (by decide)).2.2.2.2⟩

/-- C9, the code at the failing inputs: when the query succeeds with zero rows
(whatever the row type and `rows.Scan` are), or with a row that fails to scan,
`plans` is still the nil slice it was declared as, and the 200 body of
`handleGetPlans` is JSON `null`, which is not an array. -/
theorem handleGetPlans_no_plans_body_null {Row : Type} (scan : Row → Except GoString Scanned) :
    handleGetPlans (.ok ([] : List Row)) scan
        = ⟨.responded ⟨200, Json.null⟩, [.Query]⟩ ∧
      handleGetPlans (.ok [(⟨some 1, none, some (ascii "a,b"), some (ascii "f"), some 10⟩ : DbRow)])
          scanDbRow
        = ⟨.responded ⟨200, Json.null⟩, [.Query]⟩ ∧
      Json.null ≠ Json.arr [] ∧ Json.isArray Json.null = false :=
  ⟨rfl, rfl, by simp, rfl⟩

end Planwise
